import Mathlib

/-! Formal model of `ranker.py` (ResiRanker): the category schema, the
score table, the weighted ranking engine `calculate_scores`, the CSV
import/export path, the category-manager handlers and the radar
comparison loop.

Modelling conventions:
* Python floats are modelled as exact rationals extended with signed
  infinities and NaN (`PyFloat`).  Rounding of individual IEEE operations
  is idealised away; propagation of the special values (inf, NaN) is
  modelled faithfully.
* `round(x, 2)` is modelled as round-half-to-even at two decimals on the
  exact value, which is what CPython's `round` computes on the decimal
  value of a float.
* pandas `sort_values(..., ascending=False)` is modelled after
  `pandas.core.sorting.nargsort`: NaN keys are masked out and appended at
  the end (`na_position="last"`), the remaining keys are reversed, stably
  argsorted ascending, and the resulting indexer is reversed again.  The
  stable argsort is the semantics of the spec-mandated stable sort kind;
  the shipped call relies on the default `kind="quicksort"`, an unstable
  numpy introsort that can permute tied keys once a partition exceeds the
  15-element insertion-sort threshold - reported under C2 as a code bug.
  The properties the other claims draw from the sort (permutation of the
  rows, descending order, NaN placement) hold for the unstable default as
  well.
* A raised exception is modelled as `Option.none` where a claim needs it.
-/

/-- A Python float value: an exact finite rational, a signed infinity
(`pos = true` is `+inf`), or NaN. -/
inductive PyFloat where
  | fin (q : ℚ)
  | inf (pos : Bool)
  | nan
deriving DecidableEq

/-- Addition of modelled floats (exact in the finite case, IEEE special
values otherwise). -/
def pfAdd : PyFloat → PyFloat → PyFloat
  | .nan, _ => .nan
  | _, .nan => .nan
  | .inf b, .inf c => if b = c then .inf b else .nan
  | .inf b, .fin _ => .inf b
  | .fin _, .inf c => .inf c
  | .fin a, .fin b => .fin (a + b)

/-- Multiplication of modelled floats (`inf * 0 = nan`). -/
def pfMul : PyFloat → PyFloat → PyFloat
  | .nan, _ => .nan
  | _, .nan => .nan
  | .inf b, .inf c => .inf (b == c)
  | .inf b, .fin q => if q = 0 then .nan else .inf (b == decide (0 < q))
  | .fin q, .inf c => if q = 0 then .nan else .inf (c == decide (0 < q))
  | .fin a, .fin b => .fin (a * b)

/-- Division by the constant 5 (`val_num / 5`). -/
def pfDiv5 : PyFloat → PyFloat
  | .fin q => .fin (q / 5)
  | .inf b => .inf b
  | .nan => .nan

/-- Round half to even to the nearest integer (the tie rule of CPython's
built-in `round`). -/
def rhe (x : ℚ) : ℤ :=
  if x - ⌊x⌋ < 1/2 then ⌊x⌋
  else if x - ⌊x⌋ = 1/2 then (if ⌊x⌋ % 2 = 0 then ⌊x⌋ else ⌊x⌋ + 1)
  else ⌊x⌋ + 1

/-- `round(x, 2)` on modelled floats (`round(inf, 2) = inf`,
`round(nan, 2) = nan`). -/
def pfRound2 : PyFloat → PyFloat
  | .fin q => .fin ((rhe (100 * q) : ℚ) / 100)
  | .inf b => .inf b
  | .nan => .nan

def pfIsNan : PyFloat → Bool
  | .nan => true
  | _ => false

def pfIsFinite : PyFloat → Bool
  | .fin _ => true
  | _ => false

/-- Ascending comparison used by the sort model; NaN compares greatest as
in numpy, though NaN keys are masked out before the sort ever runs. -/
def pfleB : PyFloat → PyFloat → Bool
  | _, .nan => true
  | .nan, _ => false
  | .inf b, .inf c => !b || c
  | .inf b, .fin _ => !b
  | .fin _, .inf c => c
  | .fin a, .fin c => decide (a ≤ c)

/-- IEEE strict less-than (false whenever NaN is involved). -/
def pfltB : PyFloat → PyFloat → Bool
  | .nan, _ => false
  | _, .nan => false
  | .inf b, .inf c => !b && c
  | .inf b, .fin _ => !b
  | .fin _, .inf c => c
  | .fin a, .fin c => decide (a < c)

/-- A cell of the score table: a float (possibly NaN), a string, a
Python bool (as produced by `read_csv` bool inference), or Python
`None`. -/
inductive Value where
  | flt (f : PyFloat)
  | str (s : String)
  | bool (b : Bool)
  | null
deriving DecidableEq

/-- Python's notion of whitespace stripped by `float(str)`. -/
def isPyWs (c : Char) : Bool :=
  c = ' ' || c = '\t' || c = '\n' || c = '\r' || c = '\x0b' || c = '\x0c'

def digitVal (c : Char) : ℕ := c.toNat - 48

/-- A digit run with Python underscore rules (`1_0` is fine; `_1`, `1_`,
`1__0` make the whole literal invalid).  Returns the accumulated value,
the number of characters consumed, and the rest of the input; `none` when
a misplaced underscore invalidates the literal. -/
def digitsAux : ℕ → ℕ → List Char → Option (ℕ × ℕ × List Char)
  | acc, cnt, [] => some (acc, cnt, [])
  | acc, cnt, c :: cs =>
    if c.isDigit then digitsAux (10 * acc + digitVal c) (cnt + 1) cs
    else if c = '_' then
      if cnt = 0 then Option.none
      else match cs with
        | [] => Option.none
        | d :: ds =>
          if d.isDigit then digitsAux (10 * acc + digitVal d) (cnt + 2) ds
          else Option.none
    else some (acc, cnt, c :: cs)

/-- Optional leading sign; returns (isNegative, rest). -/
def splitSign : List Char → Bool × List Char
  | '+' :: cs => (false, cs)
  | '-' :: cs => (true, cs)
  | cs => (false, cs)

/-- Assemble mantissa and decimal exponent.  CPython `float(str)` does
not raise on overflow: a magnitude reaching the IEEE double overflow
range saturates to the signed infinity (`float("1e400") = inf`), and the
pandas CSV parsers behave the same way. -/
def mkFloat (neg : Bool) (mant : ℚ) (eexp : ℕ) (eneg : Bool) : PyFloat :=
  let mag := if eneg then mant / (10 : ℚ) ^ eexp else mant * (10 : ℚ) ^ eexp
  if (2 : ℚ) ^ 1024 ≤ mag then .inf (!neg)
  else .fin (if neg then -mag else mag)

/-- Model of CPython `float(str)` (exact-rational idealisation): strip
whitespace, optional sign, the case-insensitive keywords
`inf`/`infinity`/`nan`, or a decimal literal with optional fraction and
exponent.  Unicode digit forms and sub-double precision are idealised. -/
def floatOfChars (cs0 : List Char) : Option PyFloat :=
  let cs1 := ((cs0.dropWhile isPyWs).reverse.dropWhile isPyWs).reverse
  let sp := splitSign cs1
  let neg := sp.1
  let cs := sp.2
  let low := cs.map Char.toLower
  if low = ['i', 'n', 'f'] || low = ['i', 'n', 'f', 'i', 'n', 'i', 't', 'y'] then
    some (.inf (!neg))
  else if low = ['n', 'a', 'n'] then some .nan
  else
    match digitsAux 0 0 cs with
    | Option.none => Option.none
    | some (ip, icnt, r1) =>
      let fr := match r1 with
        | '.' :: r2 => digitsAux 0 0 r2
        | _ => some (0, 0, r1)
      match fr with
      | Option.none => Option.none
      | some (fp, fcnt, r2) =>
        if icnt + fcnt = 0 then Option.none
        else
          let mant : ℚ := (ip : ℚ) + (fp : ℚ) / (10 : ℚ) ^ fcnt
          match r2 with
          | [] => some (mkFloat neg mant 0 false)
          | e :: r3 =>
            if e = 'e' || e = 'E' then
              let sp2 := splitSign r3
              match digitsAux 0 0 sp2.2 with
              | Option.none => Option.none
              | some (ev, ecnt, r4) =>
                match r4 with
                | [] => if ecnt = 0 then Option.none else some (mkFloat neg mant ev sp2.1)
                | _ :: _ => Option.none
            else Option.none

def floatOfString (s : String) : Option PyFloat := floatOfChars s.toList

/-- The cell-to-float coercion of `calculate_scores` (ranker.py lines
116-121): `float(val) if pd.notnull(val) and val != "" else 3.0`, with
any exception recovered as `3.0`. -/
def parseCell : Value → PyFloat
  | .null => .fin 3
  | .flt .nan => .fin 3
  | .flt f => f
  | .bool b => .fin (if b then 1 else 0)
  | .str s =>
    if s = "" then .fin 3
    else match floatOfString s with
      | some f => f
      | Option.none => .fin 3

/-- A pandas DataFrame: column labels plus rows of cells, kept aligned
positionally with the columns. -/
structure DataFrame where
  cols : List String
  rows : List (List Value)
deriving DecidableEq

/-- The per-recompute weight dictionary (category -> integer slider
value).  A Python dict iterates in insertion order, so it is modelled as
an association list; dict keys are unique, which theorems assume as a
`Nodup` hypothesis where it matters. -/
abbrev Weights := List (String × ℤ)

/-- `row.get(cat, 3)`: read a row cell by column label, defaulting to the
integer 3 when the label is absent. -/
def rowGetD (cols : List String) (row : List Value) (c : String) : Value :=
  ((cols.zip row).lookup c).getD (Value.flt (.fin 3))

/-- One term `(val_num / 5) * weight` of the score accumulation. -/
def contribVal (cols : List String) (row : List Value) (c : String) (wt : ℤ) : PyFloat :=
  pfMul (pfDiv5 (parseCell (rowGetD cols row c))) (.fin (wt : ℚ))

/-- The raw (pre-rounding) weighted sum `s` for one row. -/
def rowScore (cols : List String) (row : List Value) (w : Weights) : PyFloat :=
  w.foldl (fun s p => pfAdd s (contribVal cols row p.1 p.2)) (.fin 0)

/-- The rows paired with their rounded final score (the `results` list
attached as the `Final Score` column). -/
def scoredRows (df : DataFrame) (w : Weights) : List (List Value × PyFloat) :=
  df.rows.map (fun r => (r, pfRound2 (rowScore df.cols r w)))

/-- The ascending key order fed to the stable sort. -/
def pairLe {α : Type} (a b : α × PyFloat) : Prop := pfleB a.2 b.2 = true

instance {α : Type} : DecidableRel (@pairLe α) :=
  fun _ _ => inferInstanceAs (Decidable (_ = true))

/-- pandas `sort_values("Final Score", ascending=False)` via `nargsort`:
mask out NaN keys (they are appended at the end, `na_position="last"`),
reverse the rest, sort ascending, reverse the result.  The sort core is
modelled as a stable sort, which is the behaviour of the stable kinds
and, for the default `kind="quicksort"`, of partitions within numpy's
15-element insertion-sort threshold; beyond that the shipped default may
permute tied keys (see C2).  Everything the other claims use from this
definition - which rows appear, the descending key order, NaN keys last -
is independent of that tie order. -/
def sortValuesDesc {α : Type} (l : List (α × PyFloat)) : List (α × PyFloat) :=
  (((l.filter (fun p => !pfIsNan p.2)).reverse).insertionSort pairLe).reverse
    ++ l.filter (fun p => pfIsNan p.2)

/-- `d["Final Score"] = results`: replace the column when present,
append it otherwise. -/
def attachScore (cols : List String) (r : List Value) (s : PyFloat) : List Value :=
  if cols.contains "Final Score" then
    (cols.zip r).map (fun p => if p.1 = "Final Score" then Value.flt s else p.2)
  else r ++ [Value.flt s]

/-- `calculate_scores` (ranker.py lines 109-125). -/
def calculate_scores (df : DataFrame) (w : Weights) : DataFrame :=
  if df.rows.isEmpty then df
  else
    { cols := if df.cols.contains "Final Score" then df.cols
              else df.cols ++ ["Final Score"],
      rows := (sortValuesDesc (scoredRows df w)).map
        (fun p => attachScore df.cols p.1 p.2) }

/-- The per-session mutable state: the active category list and the score
table. -/
structure SessionState where
  categories : List String
  data : DataFrame
deriving DecidableEq

/-- `df[c] = v`: broadcast assignment of a scalar to a column. -/
def dfSetColConst (df : DataFrame) (c : String) (v : Value) : DataFrame :=
  if df.cols.contains c then
    { cols := df.cols,
      rows := df.rows.map (fun r =>
        (df.cols.zip r).map (fun p => if p.1 = c then v else p.2)) }
  else { cols := df.cols ++ [c], rows := df.rows.map (fun r => r ++ [v]) }

/-- The "Add Category" button handler (ranker.py lines 56-61):
`if new_cat and new_cat not in st.session_state.categories`. -/
def addCategory (st : SessionState) (name : String) : SessionState :=
  if name ≠ "" ∧ st.categories.contains name = false then
    { categories := st.categories ++ [name],
      data := dfSetColConst st.data name (Value.flt (.fin 3)) }
  else st

/-- `fillna(3)` on one cell (NaN and None are both filled). -/
def fillCell : Value → Value
  | .flt .nan => .flt (.fin 3)
  | .null => .flt (.fin 3)
  | v => v

/-- `data.reindex(columns=cols).fillna(3)` (ranker.py line 86): select
and order the columns, a missing column materialising as NaN, then fill
every NaN with 3. -/
def reindexFillna3 (cols : List String) (df : DataFrame) : DataFrame :=
  { cols := cols,
    rows := df.rows.map (fun r => cols.map (fun c =>
      fillCell (((df.cols.zip r).lookup c).getD (Value.flt .nan)))) }

/-- One CSV field, modelled at token level: a numeric literal (pandas
renders floats with a round-tripping repr), a non-numeric text, or an
empty field.  CSV quoting and unquoting are inverse operations and are
the identity at this level. -/
inductive CsvField where
  | num (f : PyFloat)
  | text (s : String)
  | empty
deriving DecidableEq

/-- A parsed CSV document: the header row and the data rows. -/
structure Csv where
  header : List String
  rows : List (List CsvField)
deriving DecidableEq

/-- The pandas default `na_values` sentinels (the empty field included). -/
def naStrings : List String :=
  ["", "#N/A", "#N/A N/A", "#NA", "-1.#IND", "-1.#QNAN", "-NaN", "-nan",
   "1.#IND", "1.#QNAN", "<NA>", "N/A", "NA", "NULL", "NaN", "None",
   "n/a", "nan", "null"]

/-- How `to_csv` serialises one cell: NaN and None print as empty fields
(`na_rep=""`), the empty string prints as an empty field too. -/
def fieldOfValue : Value → CsvField
  | .flt .nan => .empty
  | .flt f => .num f
  | .str s => if s = "" then .empty else .text s
  | .bool b => .text (if b then "True" else "False")
  | .null => .empty

/-- `edited_df.to_csv(index=False)` (ranker.py line 100): the header,
then one line per row in column order, no index column. -/
def to_csv (df : DataFrame) : Csv :=
  { header := df.cols, rows := df.rows.map (fun r => r.map fieldOfValue) }

def fieldIsNA : CsvField → Bool
  | .empty => true
  | .text s => naStrings.contains s
  | .num .nan => true
  | .num _ => false

def fieldNum : CsvField → Option PyFloat
  | .num f => some f
  | .text s => floatOfString s
  | .empty => Option.none

/-- `read_csv` numeric inference: a column converts to numbers exactly
when every non-NA field parses as a number. -/
def colIsNumeric (fields : List CsvField) : Bool :=
  fields.all (fun f => fieldIsNA f || (fieldNum f).isSome)

/-- The boolean literals the pandas C tokenizer recognises during bool
inference. -/
def boolStrings : List String := ["True", "TRUE", "true", "False", "FALSE", "false"]

def trueStrings : List String := ["True", "TRUE", "true"]

def fieldIsBool : CsvField → Bool
  | .text s => boolStrings.contains s
  | _ => false

/-- The dtype a `read_csv` column is inferred to, in pandas order:
numeric when every non-NA field parses as a number, else bool when every
non-NA field is a bool literal, else object. -/
inductive ColKind where
  | numeric
  | boolean
  | object
deriving DecidableEq

def colKind (fields : List CsvField) : ColKind :=
  if colIsNumeric fields then .numeric
  else if fields.all (fun f => fieldIsNA f || fieldIsBool f) then .boolean
  else .object

def natPadLeft (s : String) (n : ℕ) : String :=
  String.mk (List.replicate (n - s.length) '0') ++ s

/-- The least power of ten clearing the denominator, when one exists
below the (generous) double-width bound. -/
def decExp (q : ℚ) : Option ℕ :=
  (List.range 1101).find? (fun k => (q * (10 : ℚ) ^ k).den = 1)

/-- Decimal rendering of a modelled float.  Only engaged when a numeral
token lands in a non-numeric column and therefore stays textual; floats
always have terminating decimal expansions, so the fallback branch is
unreachable from float-valued cells. -/
def pyRepr (f : PyFloat) : String :=
  match f with
  | .nan => "nan"
  | .inf b => if b then "inf" else "-inf"
  | .fin q =>
    let sgn := if q < 0 then "-" else ""
    let aq : ℚ := |q|
    match decExp aq with
    | some 0 => sgn ++ toString aq.num
    | some k =>
      let n := (aq * (10 : ℚ) ^ k).num.toNat
      sgn ++ toString (n / 10 ^ k) ++ "." ++ natPadLeft (toString (n % 10 ^ k)) k
    | Option.none => sgn ++ toString aq.num ++ "/" ++ toString aq.den

/-- One cell of `read_csv` output: NA sentinels become NaN; a numeric
column converts its fields to floats, a bool column to Python bools, and
an object column keeps every field textual. -/
def importField (kind : ColKind) (f : CsvField) : Value :=
  if fieldIsNA f then .flt .nan
  else match kind, f with
    | .numeric, g => .flt ((fieldNum g).getD .nan)
    | .boolean, .text s => .bool (trueStrings.contains s)
    | .boolean, _ => .flt .nan
    | .object, .num g => .str (pyRepr g)
    | .object, .text s => .str s
    | .object, .empty => .flt .nan

def csvColumn (csv : Csv) (j : ℕ) : List CsvField :=
  csv.rows.map (fun r => r.getD j .empty)

/-- `pd.read_csv` on a parsed document: column labels from the header,
per-column type inference, per-cell conversion. -/
def read_csv (csv : Csv) : DataFrame :=
  let flags := (List.range csv.header.length).map
    (fun j => colKind (csvColumn csv j))
  { cols := csv.header,
    rows := csv.rows.map (fun r => List.zipWith importField flags r) }

/-- `.fillna(3)` on a whole frame. -/
def fillna3 (df : DataFrame) : DataFrame :=
  { cols := df.cols, rows := df.rows.map (fun r => r.map fillCell) }

inductive UploadResult where
  | synced (n : ℕ)
  | missingProgram
deriving DecidableEq

/-- The file-upload handler (ranker.py lines 32-48): sync the category
list and the table from `pd.read_csv(uploaded_file).fillna(3)` when a
`Program` column exists; otherwise show an error and leave the session
state untouched. -/
def uploadCsv (st : SessionState) (csv : Csv) : SessionState × UploadResult :=
  let dfu := fillna3 (read_csv csv)
  if dfu.cols.contains "Program" then
    let newCats := dfu.cols.filter (fun c => !(c == "Program" || c == "Final Score"))
    ({ categories := newCats, data := dfu }, .synced newCats.length)
  else (st, .missingProgram)

/-- The boolean mask `ranked_df["Program"] == p` on one cell: Python
equality between a cell and a string. -/
def cellEqStr (v : Value) (p : String) : Bool :=
  match v with
  | .str s => s == p
  | _ => false

/-- The radar comparison loop (ranker.py lines 148-154).  `Option.none`
models a raised IndexError: `.iloc[0]` on a program with no matching row,
or `vals[0]` when the category list is empty. -/
def buildVectors (ranked : DataFrame) (cats : List String) :
    List String → Option (List (String × List Value))
  | [] => some []
  | p :: rest =>
    match ranked.rows.find? (fun r => cellEqStr (rowGetD ranked.cols r "Program") p) with
    | Option.none => Option.none
    | some row =>
      match cats.map (fun c => rowGetD ranked.cols row c) with
      | [] => Option.none
      | v0 :: vs =>
        match buildVectors ranked cats rest with
        | Option.none => Option.none
        | some acc => some ((p, (v0 :: vs) ++ [v0]) :: acc)

/-- Modelled from the spec: "rounded to 2 decimal places using standard
round-half-away-from-zero" - the rounding rule the spec asserts, for
comparison against the implementation's `pfRound2`. -/
def roundHalfAway2 (q : ℚ) : ℚ :=
  (if 0 ≤ q then ((⌊100 * q + 1/2⌋ : ℤ) : ℚ) else -((⌊-(100 * q) + 1/2⌋ : ℤ) : ℚ)) / 100

/-- The pairwise invariant of the descending ranking order: a later row
never has a larger score, and NaN scores all sit at the end. -/
def descOK (x y : PyFloat) : Bool := pfIsNan y || (!pfIsNan x && pfleB y x)

/-- A float-valued cell (finite, infinite, or NaN). -/
def isFloatCell : Value → Bool
  | .flt _ => true
  | _ => false

/-- A Program cell that survives the CSV round trip textually: a string
that is not an NA sentinel (in particular not empty), not a bool
literal, and not accepted by the numeric parser (which also takes
`inf`/`nan` spellings and overflowing literals such as `1e400`). -/
def progCellOK : Value → Bool
  | .str s => !naStrings.contains s && !boolStrings.contains s && (floatOfString s).isNone
  | _ => false

/-- A normalized row of `n` category cells: the Program cell followed by
`n` float ratings (finite, infinite, or NaN). -/
def rowOK (n : ℕ) : List Value → Bool
  | [] => false
  | v :: t => progCellOK v && t.all isFloatCell && (t.length == n)

/-- "Not decreased": equal values (including equal special values), or
two finite values in order. -/
def pfLeC (s1 s2 : PyFloat) : Prop :=
  s1 = s2 ∨ ∃ a b, s1 = .fin a ∧ s2 = .fin b ∧ a ≤ b

/-! ## Basic lemmas about the float model -/

theorem pfleB_refl (x : PyFloat) : pfleB x x = true := by
  cases x with
  | fin q => simp [pfleB]
  | inf b => cases b <;> rfl
  | nan => rfl

theorem pfleB_total (x y : PyFloat) : pfleB x y = true ∨ pfleB y x = true := by
  cases x <;> cases y <;> simp [pfleB] <;>
    first
    | exact le_total _ _
    | (rename_i b c; cases b <;> cases c <;> simp)

theorem pfleB_trans {x y z : PyFloat} (h1 : pfleB x y = true)
    (h2 : pfleB y z = true) : pfleB x z = true := by
  cases x <;> cases y <;> cases z <;>
    simp_all [pfleB] <;>
    first
    | exact le_trans h1 h2
    | (rename_i b c; cases b <;> cases c <;> simp_all)

theorem pfltB_irrefl (x : PyFloat) : pfltB x x = false := by
  cases x with
  | fin q => simp [pfltB]
  | inf b => cases b <;> rfl
  | nan => rfl

theorem pfIsNan_iff (x : PyFloat) : pfIsNan x = true ↔ x = .nan := by
  cases x <;> simp [pfIsNan]

instance {α : Type} : IsTotal (α × PyFloat) pairLe :=
  ⟨fun a b => pfleB_total a.2 b.2⟩

instance {α : Type} : IsTrans (α × PyFloat) pairLe :=
  ⟨fun _ _ _ h1 h2 => pfleB_trans h1 h2⟩

/-! ## The descending stable sort -/

theorem filter_key_orderedInsert {β : Type} (v : PyFloat) (a : β × PyFloat)
    (t : List (β × PyFloat)) :
    (List.orderedInsert pairLe a t).filter (fun p => decide (p.2 = v)) =
      if a.2 = v then a :: t.filter (fun p => decide (p.2 = v))
      else t.filter (fun p => decide (p.2 = v)) := by
  induction t with
  | nil => by_cases h : a.2 = v <;> simp [h]
  | cons b t ih =>
    by_cases hle : pairLe a b
    · rw [List.orderedInsert_of_le _ _ hle]
      by_cases h : a.2 = v <;> simp [List.filter_cons, h]
    · have : List.orderedInsert pairLe a (b :: t) = b :: List.orderedInsert pairLe a t := by
        simp [List.orderedInsert, hle]
      rw [this]
      by_cases h : a.2 = v
      · have hb : ¬ b.2 = v := by
          intro hb
          exact hle (by unfold pairLe; rw [h, hb]; exact pfleB_refl v)
        simp [List.filter_cons, h, hb, ih]
      · by_cases hb : b.2 = v <;> simp [List.filter_cons, h, hb, ih]

theorem filter_key_insertionSort {β : Type} (v : PyFloat)
    (l : List (β × PyFloat)) :
    (l.insertionSort pairLe).filter (fun p => decide (p.2 = v)) =
      l.filter (fun p => decide (p.2 = v)) := by
  induction l with
  | nil => rfl
  | cons a t ih =>
    show (List.orderedInsert pairLe a (t.insertionSort pairLe)).filter _ = _
    rw [filter_key_orderedInsert]
    by_cases h : a.2 = v <;> simp [List.filter_cons, h, ih]

theorem sortValuesDesc_filter_key {β : Type} (l : List (β × PyFloat))
    (v : PyFloat) :
    (sortValuesDesc l).filter (fun p => decide (p.2 = v)) =
      l.filter (fun p => decide (p.2 = v)) := by
  unfold sortValuesDesc
  rw [List.filter_append, List.filter_reverse, filter_key_insertionSort,
    List.filter_reverse, List.reverse_reverse, List.filter_filter,
    List.filter_filter]
  by_cases hv : v = PyFloat.nan
  · subst hv
    have h1 : ∀ p : β × PyFloat, (decide (p.2 = PyFloat.nan) && !pfIsNan p.2) = false := by
      intro p
      by_cases h : p.2 = PyFloat.nan <;> simp [h, pfIsNan]
    have h2 : ∀ p : β × PyFloat, (decide (p.2 = PyFloat.nan) && pfIsNan p.2)
        = decide (p.2 = PyFloat.nan) := by
      intro p
      by_cases h : p.2 = PyFloat.nan <;> simp [h, pfIsNan]
    rw [List.filter_congr (fun x _ => h1 x), List.filter_congr (fun x _ => h2 x)]
    simp
  · have hvf : pfIsNan v = false := by
      cases v with
      | nan => exact absurd rfl hv
      | fin q => rfl
      | inf b => rfl
    have h1 : ∀ p : β × PyFloat, (decide (p.2 = v) && !pfIsNan p.2) = decide (p.2 = v) := by
      intro p
      by_cases h : p.2 = v
      · simp [h, hvf]
      · simp [h]
    have h2 : ∀ p : β × PyFloat, (decide (p.2 = v) && pfIsNan p.2) = false := by
      intro p
      by_cases h : p.2 = v
      · simp [h, hvf]
      · simp [h]
    rw [List.filter_congr (fun x _ => h1 x), List.filter_congr (fun x _ => h2 x)]
    simp

theorem sortValuesDesc_perm {β : Type} (l : List (β × PyFloat)) :
    (sortValuesDesc l).Perm l := by
  unfold sortValuesDesc
  have h1 : ((((l.filter fun p => !pfIsNan p.2).reverse).insertionSort pairLe).reverse).Perm
      (l.filter fun p => !pfIsNan p.2) :=
    (List.reverse_perm _).trans ((List.perm_insertionSort _ _).trans (List.reverse_perm _))
  have h2 := List.filter_append_perm (fun p : β × PyFloat => !pfIsNan p.2) l
  have h3 : (l.filter fun p => !(!pfIsNan p.2)) = l.filter fun p => pfIsNan p.2 :=
    List.filter_congr (fun x _ => by simp)
  rw [h3] at h2
  exact (h1.append (List.Perm.refl _)).trans h2

theorem sortValuesDesc_sorted {β : Type} (l : List (β × PyFloat)) :
    List.Pairwise (fun a b => descOK a b = true) ((sortValuesDesc l).map Prod.snd) := by
  rw [List.pairwise_map]
  unfold sortValuesDesc
  rw [List.pairwise_append]
  have memNN : ∀ a : β × PyFloat,
      a ∈ (((l.filter fun p => !pfIsNan p.2).reverse).insertionSort pairLe).reverse →
      pfIsNan a.2 = false := by
    intro a ha
    rw [List.mem_reverse, (List.perm_insertionSort _ _).mem_iff, List.mem_reverse,
      List.mem_filter] at ha
    simpa using ha.2
  refine ⟨?_, ?_, ?_⟩
  · rw [List.pairwise_reverse]
    have hs := List.sorted_insertionSort pairLe ((l.filter fun p => !pfIsNan p.2).reverse)
    refine hs.imp_of_mem ?_
    intro a b ha hb hab
    have hb' : pfIsNan b.2 = false := by
      apply memNN
      rw [List.mem_reverse]
      exact hb
    unfold descOK
    rw [hb']
    unfold pairLe at hab
    simp [hab]
  · apply List.pairwise_of_forall_mem_list
    intro a _ b hb
    rw [List.mem_filter] at hb
    unfold descOK
    rw [hb.2]
    simp
  · intro a _ b hb
    rw [List.mem_filter] at hb
    unfold descOK
    rw [hb.2]
    simp

/-! ## Rounding lemmas -/

theorem rhe_near (x : ℚ) : |x - (rhe x : ℚ)| ≤ 1/2 := by
  have h0 : ((⌊x⌋ : ℤ) : ℚ) ≤ x := Int.floor_le x
  have h1 : x < (⌊x⌋ : ℚ) + 1 := Int.lt_floor_add_one x
  unfold rhe
  split_ifs with ha hb hc <;> rw [abs_le] <;> constructor <;> push_cast <;> linarith

theorem rhe_tie (k : ℤ) : rhe ((k : ℚ) + 1/2) = if k % 2 = 0 then k else k + 1 := by
  have hf : ⌊(k : ℚ) + 1/2⌋ = k := by
    rw [Int.floor_int_add]
    norm_num
  unfold rhe
  rw [hf]
  have hsub : ((k : ℚ) + 1/2) - (k : ℚ) = 1/2 := by ring
  rw [hsub]
  norm_num

theorem le_rhe (x : ℚ) : ⌊x⌋ ≤ rhe x := by
  unfold rhe
  split_ifs <;> omega

theorem rhe_le_floor_add_one (x : ℚ) : rhe x ≤ ⌊x⌋ + 1 := by
  unfold rhe
  split_ifs <;> omega

theorem rhe_mono {x y : ℚ} (h : x ≤ y) : rhe x ≤ rhe y := by
  have hf : ⌊x⌋ ≤ ⌊y⌋ := Int.floor_le_floor h
  rcases lt_or_eq_of_le hf with hlt | heq
  · calc rhe x ≤ ⌊x⌋ + 1 := rhe_le_floor_add_one x
    _ ≤ ⌊y⌋ := by omega
    _ ≤ rhe y := le_rhe y
  · have hd : x - (⌊x⌋ : ℚ) ≤ y - (⌊y⌋ : ℚ) := by
      rw [heq]
      linarith
    by_cases hx1 : x - ⌊x⌋ < 1/2
    · have : rhe x = ⌊x⌋ := by
        unfold rhe
        rw [if_pos hx1]
      rw [this, heq]
      exact le_rhe y
    · by_cases hx2 : x - ⌊x⌋ = 1/2
      · by_cases hy2 : y - ⌊y⌋ = 1/2
        · have hy1 : ¬ y - (⌊y⌋ : ℚ) < 1/2 := by
            rw [hy2]
            norm_num
          have ex : rhe x = if ⌊x⌋ % 2 = 0 then ⌊x⌋ else ⌊x⌋ + 1 := by
            unfold rhe
            rw [if_neg hx1, if_pos hx2]
          have ey : rhe y = if ⌊y⌋ % 2 = 0 then ⌊y⌋ else ⌊y⌋ + 1 := by
            unfold rhe
            rw [if_neg hy1, if_pos hy2]
          rw [ex, ey, heq]
        · have hy1 : ¬ y - (⌊y⌋ : ℚ) < 1/2 := by
            rw [← heq]
            intro hc
            exact hx1 (by linarith [hd])
          have ey : rhe y = ⌊y⌋ + 1 := by
            unfold rhe
            rw [if_neg hy1, if_neg hy2]
          rw [ey, ← heq]
          exact rhe_le_floor_add_one x
      · have hx3 : 1/2 < x - (⌊x⌋ : ℚ) :=
          lt_of_le_of_ne (not_lt.mp hx1) (fun hc => hx2 hc.symm)
        have hy1 : ¬ y - (⌊y⌋ : ℚ) < 1/2 := by
          intro hc
          linarith
        have hy2 : ¬ y - (⌊y⌋ : ℚ) = 1/2 := by
          intro hc
          rw [hc] at hd
          linarith
        have ey : rhe y = ⌊y⌋ + 1 := by
          unfold rhe
          rw [if_neg hy1, if_neg hy2]
        rw [ey, ← heq]
        exact rhe_le_floor_add_one x

/-! ## Monotonicity machinery -/

theorem pfLeC_refl (s : PyFloat) : pfLeC s s := Or.inl rfl

theorem pfLeC_add {s1 s2 x y : PyFloat} (hs : pfLeC s1 s2) (hx : pfLeC x y) :
    pfLeC (pfAdd s1 x) (pfAdd s2 y) := by
  rcases hs with rfl | ⟨a, b, rfl, rfl, hab⟩
  · rcases hx with rfl | ⟨c, d, rfl, rfl, hcd⟩
    · exact pfLeC_refl _
    · cases s1 with
      | fin q => exact Or.inr ⟨q + c, q + d, rfl, rfl, by linarith⟩
      | inf b => exact Or.inl rfl
      | nan => exact Or.inl rfl
  · rcases hx with rfl | ⟨c, d, rfl, rfl, hcd⟩
    · cases x with
      | fin q => exact Or.inr ⟨a + q, b + q, rfl, rfl, by linarith⟩
      | inf e => exact Or.inl rfl
      | nan => exact Or.inl rfl
    · exact Or.inr ⟨a + c, b + d, rfl, rfl, by linarith⟩

theorem pfLeC_not_lt_round {s1 s2 : PyFloat} (hs : pfLeC s1 s2) :
    pfltB (pfRound2 s2) (pfRound2 s1) = false := by
  rcases hs with rfl | ⟨a, b, rfl, rfl, hab⟩
  · exact pfltB_irrefl _
  · show pfltB (.fin ((rhe (100 * b) : ℚ) / 100)) (.fin ((rhe (100 * a) : ℚ) / 100)) = false
    have hr : rhe (100 * a) ≤ rhe (100 * b) := rhe_mono (by linarith)
    have : ¬ ((rhe (100 * b) : ℚ) / 100 < (rhe (100 * a) : ℚ) / 100) := by
      intro hc
      rw [div_lt_div_iff_of_pos_right (by norm_num)] at hc
      exact absurd (Int.cast_lt.mp hc) (not_lt.mpr hr)
    simp [pfltB, this]

/-! ## Engine lemmas -/

theorem lookup_zip_none {cols : List String} {row : List Value} {c : String}
    (h : c ∉ cols) : (cols.zip row).lookup c = Option.none := by
  induction cols generalizing row with
  | nil => rfl
  | cons c0 t ih =>
    cases row with
    | nil => rfl
    | cons v vs =>
      have hne : ¬ (c == c0) = true := by
        simp only [beq_iff_eq]
        intro hc
        exact h (hc ▸ List.mem_cons_self c0 t)
      show List.lookup c ((c0, v) :: t.zip vs) = Option.none
      rw [List.lookup_cons]
      simp only [Bool.not_eq_true] at hne
      rw [hne]
      exact ih (fun hc => h (List.mem_cons_of_mem c0 hc))

theorem rowGetD_not_mem {cols : List String} {row : List Value} {c : String}
    (h : c ∉ cols) : rowGetD cols row c = Value.flt (.fin 3) := by
  unfold rowGetD
  rw [lookup_zip_none h]
  rfl

theorem parseCell_fin (q : ℚ) : parseCell (Value.flt (.fin q)) = .fin q := rfl

theorem contribVal_missing {cols : List String} {row : List Value} {c : String}
    (wt : ℤ) (h : c ∉ cols) :
    contribVal cols row c wt = .fin (3 / 5 * (wt : ℚ)) := by
  unfold contribVal
  rw [rowGetD_not_mem h, parseCell_fin]
  rfl

theorem contribVal_fin {cols : List String} {row : List Value} {c : String}
    {v : ℚ} (wt : ℤ) (h : rowGetD cols row c = Value.flt (.fin v)) :
    contribVal cols row c wt = .fin (v / 5 * (wt : ℚ)) := by
  unfold contribVal
  rw [h, parseCell_fin]
  rfl

theorem rowScore_eq_sum (cols : List String) (row : List Value) (w : Weights) :
    rowScore cols row w =
      (w.map (fun p => contribVal cols row p.1 p.2)).foldl pfAdd (.fin 0) := by
  unfold rowScore
  rw [List.foldl_map]

theorem rowScore_congr {cols1 cols2 : List String} {row1 row2 : List Value}
    (w : Weights)
    (h : ∀ p ∈ w, rowGetD cols2 row2 p.1 = rowGetD cols1 row1 p.1) :
    rowScore cols2 row2 w = rowScore cols1 row1 w := by
  unfold rowScore
  have : ∀ (s : PyFloat), w.foldl (fun s p => pfAdd s (contribVal cols2 row2 p.1 p.2)) s
      = w.foldl (fun s p => pfAdd s (contribVal cols1 row1 p.1 p.2)) s := by
    induction w with
    | nil => intro s; rfl
    | cons p t ih =>
      intro s
      have hc : contribVal cols2 row2 p.1 p.2 = contribVal cols1 row1 p.1 p.2 := by
        unfold contribVal
        rw [h p (List.mem_cons_self p t)]
      show List.foldl _ (pfAdd s (contribVal cols2 row2 p.1 p.2)) t = _
      rw [hc]
      exact ih (fun q hq => h q (List.mem_cons_of_mem p hq)) _
  exact this _

theorem keys_nodup_eq {w : Weights} (hn : (w.map Prod.fst).Nodup)
    {p q : String × ℤ} (hp : p ∈ w) (hq : q ∈ w) (h : p.1 = q.1) : p = q := by
  induction w with
  | nil => cases hp
  | cons a t ih =>
    rw [List.map_cons, List.nodup_cons] at hn
    rcases List.mem_cons.mp hp with rfl | hp' <;>
      rcases List.mem_cons.mp hq with rfl | hq'
    · rfl
    · exact absurd (h ▸ List.mem_map_of_mem Prod.fst hq') hn.1
    · exact absurd (h ▸ List.mem_map_of_mem Prod.fst hp') hn.1
    · exact ih hn.2 hp' hq'

theorem foldl_pfLeC {β : Type} {g1 g2 : β → PyFloat} :
    ∀ (w : List β) (s1 s2 : PyFloat), pfLeC s1 s2 →
      (∀ p ∈ w, pfLeC (g1 p) (g2 p)) →
      pfLeC (w.foldl (fun s p => pfAdd s (g1 p)) s1)
        (w.foldl (fun s p => pfAdd s (g2 p)) s2)
  | [], _, _, hs, _ => hs
  | p :: t, _, _, hs, hc =>
    foldl_pfLeC t _ _ (pfLeC_add hs (hc p (List.mem_cons_self p t)))
      (fun q hq => hc q (List.mem_cons_of_mem p hq))

theorem rowScore_pfLeC {cols : List String} {row1 row2 : List Value}
    {w : Weights} {c : String} {wt : ℤ} {v1 v2 : ℚ}
    (hmem : (c, wt) ∈ w) (hnod : (w.map Prod.fst).Nodup) (hpos : 0 < wt)
    (h1 : rowGetD cols row1 c = Value.flt (.fin v1))
    (h2 : rowGetD cols row2 c = Value.flt (.fin v2))
    (hle : v1 ≤ v2)
    (hagree : ∀ p ∈ w, p.1 ≠ c → rowGetD cols row2 p.1 = rowGetD cols row1 p.1) :
    pfLeC (rowScore cols row1 w) (rowScore cols row2 w) := by
  have hcontrib : ∀ p ∈ w,
      pfLeC (contribVal cols row1 p.1 p.2) (contribVal cols row2 p.1 p.2) := by
    intro p hp
    by_cases hpc : p.1 = c
    · have hpw : p = (c, wt) := keys_nodup_eq hnod hp hmem hpc
      subst hpw
      rw [contribVal_fin wt h1, contribVal_fin wt h2]
      refine Or.inr ⟨_, _, rfl, rfl, ?_⟩
      have hwt : (0 : ℚ) ≤ (wt : ℚ) := by exact_mod_cast le_of_lt hpos
      have : v1 / 5 ≤ v2 / 5 := by linarith
      exact mul_le_mul_of_nonneg_right this hwt
    · have : contribVal cols row2 p.1 p.2 = contribVal cols row1 p.1 p.2 := by
        unfold contribVal
        rw [hagree p hp hpc]
      rw [this]
      exact pfLeC_refl _
  unfold rowScore
  exact foldl_pfLeC w _ _ (pfLeC_refl _) hcontrib

/-! ## Connecting `calculate_scores` to its pieces -/

theorem calc_scores_rows (df : DataFrame) (w : Weights) :
    (calculate_scores df w).rows =
      (sortValuesDesc (scoredRows df w)).map (fun p => attachScore df.cols p.1 p.2) := by
  unfold calculate_scores
  by_cases h : df.rows.isEmpty
  · have hr : df.rows = [] := List.isEmpty_iff.mp h
    rw [if_pos h]
    unfold scoredRows sortValuesDesc
    rw [hr]
    rfl
  · rw [if_neg h]

theorem calc_scores_perm (df : DataFrame) (w : Weights) :
    ((calculate_scores df w).rows).Perm
      (df.rows.map (fun r => attachScore df.cols r (pfRound2 (rowScore df.cols r w)))) := by
  rw [calc_scores_rows]
  have h1 : ((sortValuesDesc (scoredRows df w)).map
      (fun p => attachScore df.cols p.1 p.2)).Perm
      ((scoredRows df w).map (fun p => attachScore df.cols p.1 p.2)) :=
    (sortValuesDesc_perm _).map _
  refine h1.trans (List.Perm.of_eq ?_)
  unfold scoredRows
  rw [List.map_map]
  rfl

/-! ## Evaluation helpers for concrete inputs -/

theorem rhe_eval_lt {x : ℚ} {f : ℤ} (hf : ⌊x⌋ = f) (h : x - (f : ℚ) < 1/2) :
    rhe x = f := by
  unfold rhe
  rw [hf, if_pos h]

theorem rhe_eval_tie_even {x : ℚ} {f : ℤ} (hf : ⌊x⌋ = f) (h : x - (f : ℚ) = 1/2)
    (he : f % 2 = 0) : rhe x = f := by
  unfold rhe
  rw [hf, if_neg (by rw [h]; norm_num), if_pos h, if_pos he]

theorem pfRound2_fin {q r : ℚ} (h : (rhe (100 * q) : ℚ) / 100 = r) :
    pfRound2 (.fin q) = .fin r := by
  rw [show pfRound2 (.fin q) = .fin ((rhe (100 * q) : ℚ) / 100) from rfl, h]

theorem rowScore_one {cols : List String} {row : List Value} {c : String}
    {v : ℚ} (wt : ℤ) (h : rowGetD cols row c = Value.flt (.fin v)) :
    rowScore cols row [(c, wt)] = .fin (0 + v / 5 * (wt : ℚ)) := by
  unfold rowScore
  show pfAdd (.fin 0) (contribVal cols row c wt) = _
  rw [contribVal_fin wt h]
  rfl

theorem calc_scores_single {cols : List String} {row : List Value} {w : Weights}
    {s : PyFloat} (hs : pfRound2 (rowScore cols row w) = s)
    (hnn : pfIsNan s = false) (hFS : cols.contains "Final Score" = false) :
    (calculate_scores ⟨cols, [row]⟩ w).rows = [row ++ [Value.flt s]] := by
  rw [calc_scores_rows]
  show (sortValuesDesc (scoredRows ⟨cols, [row]⟩ w)).map _ = _
  unfold scoredRows
  show (sortValuesDesc [(row, pfRound2 (rowScore cols row w))]).map _ = _
  rw [hs]
  have hFS2 : "Final Score" ∉ cols := by
    intro hmem
    rw [show cols.contains "Final Score" = List.elem "Final Score" cols from rfl,
      List.elem_iff.mpr hmem] at hFS
    cases hFS
  unfold sortValuesDesc attachScore
  simp [hnn, hFS2, List.filter]

/-! ## The claims -/

/-- C1: `calculate_scores` assigns every row the (rounded) weighted sum
over the categories of the weight dict, `(ParseValue(row[cat])/5) *
weights[cat]` per category; a weighted category missing from the columns
contributes exactly `(3/5)*w` via the default 3.0, and a category absent
from the weight dict contributes nothing (the score depends only on the
cells at weighted categories). -/
theorem C1_weighted_sum (df : DataFrame) (w : Weights) :
    ((calculate_scores df w).rows).Perm
      (df.rows.map (fun r => attachScore df.cols r (pfRound2 (rowScore df.cols r w))))
    ∧ (∀ cols row, rowScore cols row w =
        (w.map (fun p => contribVal cols row p.1 p.2)).foldl pfAdd (.fin 0))
    ∧ (∀ row c wt, c ∉ df.cols → contribVal df.cols row c wt = .fin (3 / 5 * (wt : ℚ)))
    ∧ (∀ cols2 row2 row,
        (∀ p ∈ w, rowGetD cols2 row2 p.1 = rowGetD df.cols row p.1) →
        rowScore cols2 row2 w = rowScore df.cols row w) :=
  ⟨calc_scores_perm df w, fun cols row => rowScore_eq_sum cols row w,
    fun _ _ wt h => contribVal_missing wt h, fun _ _ _ h => rowScore_congr w h⟩

/-- Witness for C1 at spec Scenario 2: weights `{A:10, B:20}`, row
`Program="Y", A=3` with no `B` column: the stale weighted category `B`
contributes `(3/5)*20 = 12`, and a category (`Junk`) outside the weight
dict does not affect the score. -/
theorem C1_witness :
    contribVal ["Program", "A"] [Value.str "Y", Value.flt (.fin 3)] "B" 20
      = .fin (3 / 5 * ((20 : ℤ) : ℚ))
    ∧ rowScore ["Program", "A", "Junk"]
        [Value.str "Y", Value.flt (.fin 3), Value.str "zzz"] [("A", 10), ("B", 20)]
      = rowScore ["Program", "A"] [Value.str "Y", Value.flt (.fin 3)]
        [("A", 10), ("B", 20)] :=
  ⟨(C1_weighted_sum ⟨["Program", "A"], [[Value.str "Y", Value.flt (.fin 3)]]⟩
      [("A", 10), ("B", 20)]).2.2.1 [Value.str "Y", Value.flt (.fin 3)] "B" 20 (by decide),
   (C1_weighted_sum ⟨["Program", "A"], [[Value.str "Y", Value.flt (.fin 3)]]⟩
      [("A", 10), ("B", 20)]).2.2.2 ["Program", "A", "Junk"]
      [Value.str "Y", Value.flt (.fin 3), Value.str "zzz"]
      [Value.str "Y", Value.flt (.fin 3)] (by decide)⟩

/-- C2 (code bug): descending order by Final Score with ties kept in
their input order is exactly the behaviour of `sort_values` under a
stable sort kind, proved here of the model `sortValuesDesc`: the sorted
scores are pairwise descending (NaN scores, which pandas places last,
close the list), every tie class is exactly as it occurs among the
scored input rows, and the output rows are the sorted scored rows.  The
shipped call at ranker.py:125 relies on the default `kind="quicksort"`,
which numpy implements as an unstable introsort - its partition step
(median-of-three swaps, the pivot moved to the penultimate slot, the
crossing-pointer swaps over equal keys) permutes tied rows once a
partition exceeds the 15-element insertion-sort threshold, so for 17 or
more tied rows the code does not preserve input order.  Since the spec
mandates a stable sort twice (sections 4.3 and 8), the default sort kind
is the bug; the descending order and the permutation of the rows hold
for the unstable default as well. -/
theorem C2_stable_kind_semantics (df : DataFrame) (w : Weights) (v : PyFloat) :
    List.Pairwise (fun a b => descOK a b = true)
      ((sortValuesDesc (scoredRows df w)).map Prod.snd)
    ∧ (sortValuesDesc (scoredRows df w)).filter (fun p => decide (p.2 = v))
        = (scoredRows df w).filter (fun p => decide (p.2 = v))
    ∧ (calculate_scores df w).rows
        = (sortValuesDesc (scoredRows df w)).map (fun p => attachScore df.cols p.1 p.2) :=
  ⟨sortValuesDesc_sorted _, sortValuesDesc_filter_key _ v, calc_scores_rows df w⟩

/-- C3, counterexample: a raw sum of exactly 0.125 (cell 0.625, weight 1)
is stored as 0.12 = 3/25 by the code (Python round, half-to-even), while
the claimed round-half-away-from-zero yields 0.13; the two disagree. -/
theorem C3_counterexample :
    (calculate_scores ⟨["Program", "A"], [[Value.str "X", Value.flt (.fin (5/8))]]⟩
        [("A", 1)]).rows
      = [[Value.str "X", Value.flt (.fin (5/8)), Value.flt (.fin (3/25))]]
    ∧ roundHalfAway2 (1/8) = 13/100
    ∧ (3/25 : ℚ) ≠ 13/100 := by
  refine ⟨?_, ?_, by norm_num⟩
  · have hget : rowGetD ["Program", "A"] [Value.str "X", Value.flt (.fin (5/8))] "A"
        = Value.flt (.fin (5/8)) := by
      simp [rowGetD, List.lookup]
    have hsc := rowScore_one 1 hget
    have hfl : ⌊(100 * (0 + 5/8/5 * ((1 : ℤ) : ℚ)))⌋ = 12 := by
      rw [Int.floor_eq_iff]
      push_cast
      norm_num
    have hrhe := rhe_eval_tie_even hfl (by push_cast; norm_num) (by norm_num)
    have hrd : pfRound2 (rowScore ["Program", "A"]
        [Value.str "X", Value.flt (.fin (5/8))] [("A", 1)]) = .fin (3/25) := by
      rw [hsc]
      apply pfRound2_fin
      rw [hrhe]
      norm_num
    rw [calc_scores_single hrd rfl (by decide)]
    rfl
  · unfold roundHalfAway2
    rw [if_pos (by norm_num),
      show (100 : ℚ) * (1/8) + 1/2 = ((13 : ℤ) : ℚ) by norm_num, Int.floor_intCast]
    norm_num

/-- C3, amended: every stored Final Score is the raw weighted sum rounded
at two decimals with round-half-to-even (CPython `round`): the result is
within half a hundredth of the raw sum, and a decimal tie `k + 1/2` (in
hundredths) rounds to the even neighbour, e.g. 0.125 to 0.12. -/
theorem C3_round_half_even (df : DataFrame) (w : Weights) (q : ℚ) (k : ℤ) :
    ((calculate_scores df w).rows).Perm
      (df.rows.map (fun r => attachScore df.cols r (pfRound2 (rowScore df.cols r w))))
    ∧ pfRound2 (.fin q) = .fin ((rhe (100 * q) : ℚ) / 100)
    ∧ |100 * q - (rhe (100 * q) : ℚ)| ≤ 1/2
    ∧ rhe ((k : ℚ) + 1/2) = (if k % 2 = 0 then k else k + 1) :=
  ⟨calc_scores_perm df w, rfl, rhe_near _, rhe_tie k⟩

/-- C4: importing a CSV whose header has no `Program` column fails with
the schema error and leaves the session state (categories and table)
exactly as it was. -/
theorem C4_missing_program (st : SessionState) (csv : Csv)
    (h : csv.header.contains "Program" = false) :
    uploadCsv st csv = (st, UploadResult.missingProgram) := by
  simp only [uploadCsv, fillna3, read_csv]
  rw [h]
  rfl

/-- Witness for C4: a concrete session and a headerless-of-Program CSV. -/
theorem C4_witness :
    uploadCsv ⟨["A"], ⟨["Program", "A"], [[Value.str "X", Value.flt (.fin 4)]]⟩⟩
      ⟨["School", "B"], [[CsvField.text "Y", CsvField.num (.fin 2)]]⟩
    = (⟨["A"], ⟨["Program", "A"], [[Value.str "X", Value.flt (.fin 4)]]⟩⟩,
       UploadResult.missingProgram) :=
  C4_missing_program _ _ (by decide)

/-- C5: the engine returns an empty result on an empty table without
raising, but the radar view builder raises an IndexError (modelled as
`none`) at `vals.append(vals[0])` when the category schema is empty and a
program is selected, contradicting the claim that it never fails on zero
categories. -/
theorem C5_empty_inputs :
    calculate_scores ⟨["Program", "A"], []⟩ [("A", 10)] = ⟨["Program", "A"], []⟩
    ∧ buildVectors ⟨["Program", "Final Score"],
        [[Value.str "Example Hospital", Value.flt (.fin 18)]]⟩ [] ["Example Hospital"]
      = Option.none :=
  ⟨rfl, rfl⟩

/-- C7: with a positive weight on category `c` and dict keys unique (as in
a Python dict), raising the numeric rating of `c` in a row, all other
weighted cells unchanged, never produces a smaller stored Final Score. -/
theorem C7_monotone {cols : List String} {row1 row2 : List Value} {w : Weights}
    {c : String} {wt : ℤ} {v1 v2 : ℚ}
    (hmem : (c, wt) ∈ w) (hnod : (w.map Prod.fst).Nodup) (hpos : 0 < wt)
    (h1 : rowGetD cols row1 c = Value.flt (.fin v1))
    (h2 : rowGetD cols row2 c = Value.flt (.fin v2))
    (hle : v1 ≤ v2)
    (hagree : ∀ p ∈ w, p.1 ≠ c → rowGetD cols row2 p.1 = rowGetD cols row1 p.1) :
    pfltB (pfRound2 (rowScore cols row2 w)) (pfRound2 (rowScore cols row1 w)) = false :=
  pfLeC_not_lt_round (rowScore_pfLeC hmem hnod hpos h1 h2 hle hagree)

/-- Witness for C7: rating for `A` raised from 2 to 4 under weight 10. -/
theorem C7_witness :
    pfltB
      (pfRound2 (rowScore ["Program", "A"] [Value.str "X", Value.flt (.fin 4)] [("A", 10)]))
      (pfRound2 (rowScore ["Program", "A"] [Value.str "X", Value.flt (.fin 2)] [("A", 10)]))
    = false :=
  @C7_monotone ["Program", "A"] [Value.str "X", Value.flt (.fin 2)]
    [Value.str "X", Value.flt (.fin 4)] [("A", 10)] "A" 10 2 4
    (List.mem_cons_self _ _) (by decide) (by decide) rfl rfl (by norm_num) (by decide)

/-- C8, counterexample: the cell string `"inf"` is accepted by `float`
and ParseValue returns positive infinity, which is not finite - the claim
that ParseValue always returns a finite number fails. -/
theorem C8_counterexample :
    parseCell (Value.str "inf") = PyFloat.inf true
    ∧ pfIsFinite (parseCell (Value.str "inf")) = false :=
  ⟨rfl, rfl⟩

/-- C8, amended: ParseValue is total (never raises - CPython `float` on
a string does not even raise on overflow); a missing column, None, NaN,
the empty string and any non-parsing string all resolve to exactly 3.0,
a finite numeric cell parses to itself and a bool cell to 1.0/0.0 - but
the result is not always finite: a string spelling an infinity or NaN,
an overflowing literal such as `1e400` (which `float` saturates to
infinity), or an infinite float cell yields the corresponding non-finite
value. -/
theorem C8_parse_behaviour :
    parseCell Value.null = PyFloat.fin 3
    ∧ parseCell (Value.flt .nan) = PyFloat.fin 3
    ∧ parseCell (Value.str "") = PyFloat.fin 3
    ∧ (∀ s, floatOfString s = Option.none → parseCell (Value.str s) = PyFloat.fin 3)
    ∧ (∀ q, parseCell (Value.flt (.fin q)) = PyFloat.fin q)
    ∧ (∀ b, parseCell (Value.flt (.inf b)) = PyFloat.inf b)
    ∧ (∀ b, parseCell (Value.bool b) = PyFloat.fin (if b then 1 else 0))
    ∧ (∀ cols row c, c ∉ cols → parseCell (rowGetD cols row c) = PyFloat.fin 3)
    ∧ (∀ s f, floatOfString s = some f → s ≠ "" → parseCell (Value.str s) = f)
    ∧ parseCell (Value.str "1e400") = PyFloat.inf true := by
  refine ⟨rfl, rfl, rfl, ?_, fun q => rfl, fun b => rfl, fun b => rfl, ?_, ?_, ?_⟩
  · intro s h
    by_cases hs : s = ""
    · subst hs
      rfl
    · simp [parseCell, hs, h]
  · intro cols row c h
    rw [rowGetD_not_mem h]
    rfl
  · intro s f h hs
    simp [parseCell, hs, h]
  · have h : floatOfString "1e400" = some (PyFloat.inf true) := by
      simp [floatOfString, floatOfChars, digitsAux, splitSign, mkFloat, isPyWs, digitVal]
      norm_num
    simp [parseCell, h]

/-- Witness for C8: a non-numeric string and a missing column default to
3.0, and a plain decimal string parses to its value. -/
theorem C8_witness :
    parseCell (Value.str "abc") = PyFloat.fin 3
    ∧ parseCell (rowGetD ["Program"] [Value.str "X"] "Schedule") = PyFloat.fin 3
    ∧ parseCell (Value.str "2.5") = PyFloat.fin (5/2) := by
  refine ⟨C8_parse_behaviour.2.2.2.1 "abc" rfl,
    C8_parse_behaviour.2.2.2.2.2.2.2.1 ["Program"] [Value.str "X"] "Schedule" (by decide),
    C8_parse_behaviour.2.2.2.2.2.2.2.2.1 "2.5" (.fin (5/2)) ?_ (by decide)⟩
  simp [floatOfString, floatOfChars, digitsAux, splitSign, mkFloat, isPyWs, digitVal]
  norm_num

/-- C9: the Add Category handler does not special-case the reserved name:
when `Program` is not among the categories, adding it is accepted (the
category list changes), `Program` is appended to the schema, and the
broadcast `data["Program"] = 3` overwrites every stored program name with
the default 3. -/
theorem C9_add_program (st : SessionState)
    (h : st.categories.contains "Program" = false) :
    (addCategory st "Program").categories = st.categories ++ ["Program"]
    ∧ (addCategory st "Program").data
        = dfSetColConst st.data "Program" (Value.flt (.fin 3))
    ∧ (addCategory st "Program").categories ≠ st.categories
    ∧ (st.data.cols.contains "Program" = true →
        (addCategory st "Program").data.rows = st.data.rows.map (fun r =>
          (st.data.cols.zip r).map (fun p =>
            if p.1 = "Program" then Value.flt (.fin 3) else p.2))) := by
  have hguard : ("Program" : String) ≠ "" ∧ st.categories.contains "Program" = false :=
    ⟨by decide, h⟩
  unfold addCategory
  rw [if_pos hguard]
  refine ⟨rfl, rfl, ?_, ?_⟩
  · intro hc
    have hlen := congrArg List.length hc
    simp at hlen
  · intro hcol
    unfold dfSetColConst
    rw [if_pos hcol]

/-- Witness for C9: adding `Program` to a session whose table stores
`Example Hospital` replaces the program name with the rating 3. -/
theorem C9_witness :
    (addCategory ⟨["A"], ⟨["Program", "A"],
        [[Value.str "Example Hospital", Value.flt (.fin 4)]]⟩⟩ "Program").categories
      = ["A", "Program"]
    ∧ (addCategory ⟨["A"], ⟨["Program", "A"],
        [[Value.str "Example Hospital", Value.flt (.fin 4)]]⟩⟩ "Program").data.rows
      = [[Value.flt (.fin 3), Value.flt (.fin 4)]] := by
  have h := C9_add_program ⟨["A"], ⟨["Program", "A"],
    [[Value.str "Example Hospital", Value.flt (.fin 4)]]⟩⟩ (by decide)
  refine ⟨h.1, ?_⟩
  rw [h.2.2.2 (by decide)]
  rfl

/-- C10: ratings are not clamped to [0, 5]: a numeric cell contributes
exactly `(v/5)*w` for any `v`, so a Final Score can be negative (rating
-5, weight 10 gives -10) or exceed the total weight (rating 10, weight 10
gives 20 > 10). -/
theorem C10_no_clamping :
    (∀ cols row c wt (v : ℚ), rowGetD cols row c = Value.flt (.fin v) →
        contribVal cols row c wt = .fin (v / 5 * (wt : ℚ)))
    ∧ (calculate_scores ⟨["Program", "A"], [[Value.str "X", Value.flt (.fin (-5))]]⟩
        [("A", 10)]).rows
      = [[Value.str "X", Value.flt (.fin (-5)), Value.flt (.fin (-10))]]
    ∧ ((-10 : ℚ) < 0)
    ∧ (calculate_scores ⟨["Program", "A"], [[Value.str "X", Value.flt (.fin 10)]]⟩
        [("A", 10)]).rows
      = [[Value.str "X", Value.flt (.fin 10), Value.flt (.fin 20)]]
    ∧ ((10 : ℚ) < 20) := by
  refine ⟨fun cols row c wt v h => contribVal_fin wt h, ?_, by norm_num, ?_, by norm_num⟩
  · have hsc := @rowScore_one ["Program", "A"]
      [Value.str "X", Value.flt (.fin (-5))] "A" (-5) 10 rfl
    have hfl : ⌊(100 * (0 + (-5 : ℚ)/5 * ((10 : ℤ) : ℚ)))⌋ = -1000 := by
      rw [Int.floor_eq_iff]
      push_cast
      norm_num
    have hrd : pfRound2 (rowScore ["Program", "A"]
        [Value.str "X", Value.flt (.fin (-5))] [("A", 10)]) = .fin (-10) := by
      rw [hsc]
      apply pfRound2_fin
      rw [rhe_eval_lt hfl (by push_cast; norm_num)]
      norm_num
    rw [calc_scores_single hrd rfl (by decide)]
    rfl
  · have hsc := @rowScore_one ["Program", "A"]
      [Value.str "X", Value.flt (.fin 10)] "A" 10 10 rfl
    have hfl : ⌊(100 * (0 + (10 : ℚ)/5 * ((10 : ℤ) : ℚ)))⌋ = 2000 := by
      rw [Int.floor_eq_iff]
      push_cast
      norm_num
    have hrd : pfRound2 (rowScore ["Program", "A"]
        [Value.str "X", Value.flt (.fin 10)] [("A", 10)]) = .fin 20 := by
      rw [hsc]
      apply pfRound2_fin
      rw [rhe_eval_lt hfl (by push_cast; norm_num)]
      norm_num
    rw [calc_scores_single hrd rfl (by decide)]
    rfl

/-- Witness for C10: a rating of 7 (above the scale) under weight 10
contributes exactly (7/5)*10. -/
theorem C10_witness :
    contribVal ["A"] [Value.flt (.fin 7)] "A" 10 = .fin (7 / 5 * ((10 : ℤ) : ℚ)) :=
  C10_no_clamping.1 ["A"] [Value.flt (.fin 7)] "A" 10 7 rfl

/-! ## Round-trip lemmas for the CSV codec -/

theorem zipWith_import_numeric {t : List Value} (h : t.all isFloatCell = true) :
    List.zipWith importField (List.replicate t.length ColKind.numeric)
      (t.map fieldOfValue) = t := by
  induction t with
  | nil => rfl
  | cons v t ih =>
    rw [List.all_cons, Bool.and_eq_true] at h
    obtain ⟨hv, ht⟩ := h
    rw [List.length_cons, List.replicate_succ, List.map_cons, List.zipWith_cons_cons,
      ih ht]
    cases v with
    | flt f => cases f <;> rfl
    | str s => cases hv
    | bool b => cases hv
    | null => cases hv

theorem progCellOK_parts {s : String} (h : progCellOK (Value.str s) = true) :
    naStrings.contains s = false ∧ boolStrings.contains s = false
      ∧ floatOfString s = Option.none ∧ s ≠ "" := by
  unfold progCellOK at h
  rw [Bool.and_eq_true, Bool.and_eq_true] at h
  obtain ⟨⟨hna, hbool⟩, hparse⟩ := h
  rw [Bool.not_eq_true'] at hna hbool
  refine ⟨hna, hbool, Option.isNone_iff_eq_none.mp hparse, ?_⟩
  intro he
  subst he
  cases hna

theorem importField_prog {v : Value} (h : progCellOK v = true) :
    importField ColKind.object (fieldOfValue v) = v := by
  cases v with
  | flt f => cases f <;> cases h
  | null => cases h
  | bool b => cases h
  | str s =>
    obtain ⟨hna, _, _, hne⟩ := progCellOK_parts h
    show importField ColKind.object (if s = "" then .empty else .text s) = _
    rw [if_neg hne]
    have hnm : s ∉ naStrings := fun hm => by
      rw [show naStrings.contains s = true from List.elem_iff.mpr hm] at hna
      cases hna
    simp [importField, fieldIsNA, hna, hnm]

theorem import_row {cats : List String} {r : List Value}
    (h : rowOK cats.length r = true) :
    List.zipWith importField
      (ColKind.object :: List.replicate cats.length ColKind.numeric)
      (r.map fieldOfValue) = r := by
  cases r with
  | nil => cases h
  | cons v t =>
    unfold rowOK at h
    rw [Bool.and_eq_true, Bool.and_eq_true] at h
    obtain ⟨⟨hv, ht⟩, hlen⟩ := h
    have hlen2 : t.length = cats.length := by simpa using hlen
    rw [List.map_cons, List.zipWith_cons_cons, importField_prog hv, ← hlen2,
      zipWith_import_numeric ht]

theorem colfield_numeric {x : CsvField}
    (h : x = CsvField.empty ∨ ∃ f, x = CsvField.num f) :
    (fieldIsNA x || (fieldNum x).isSome) = true := by
  rcases h with rfl | ⟨f, rfl⟩
  · rfl
  · cases f <;> rfl

theorem isFloatCell_elim {v : Value} (h : isFloatCell v = true) :
    ∃ f, v = Value.flt f := by
  cases v with
  | flt f => exact ⟨f, rfl⟩
  | str s => cases h
  | bool b => cases h
  | null => cases h

theorem col_zero_object {cats : List String} {r0 : List Value}
    {rest : List (List Value)} (h0 : rowOK cats.length r0 = true) :
    colKind (((r0 :: rest).map (fun r => r.map fieldOfValue)).map
      (fun r => r.getD 0 CsvField.empty)) = ColKind.object := by
  cases r0 with
  | nil => cases h0
  | cons v t =>
    unfold rowOK at h0
    rw [Bool.and_eq_true, Bool.and_eq_true] at h0
    obtain ⟨⟨hv, _⟩, _⟩ := h0
    cases v with
    | flt f => cases f <;> cases hv
    | null => cases hv
    | bool b => cases hv
    | str s =>
      obtain ⟨hna, hbool, hparse, hne⟩ := progCellOK_parts hv
      rw [List.map_cons, List.map_cons, List.map_cons, List.getD_cons_zero]
      have hf : fieldOfValue (Value.str s) = CsvField.text s := by
        show (if s = "" then CsvField.empty else CsvField.text s) = _
        rw [if_neg hne]
      rw [hf]
      have h1 : colIsNumeric (CsvField.text s ::
          ((rest.map (fun r => r.map fieldOfValue)).map
            (fun r => r.getD 0 CsvField.empty))) = false := by
        unfold colIsNumeric
        rw [List.all_cons]
        have hx : (fieldIsNA (CsvField.text s) || (fieldNum (CsvField.text s)).isSome)
            = false := by
          show (naStrings.contains s || (floatOfString s).isSome) = false
          rw [hna, hparse]
          rfl
        rw [hx]
        rfl
      have h2 : ((CsvField.text s ::
          ((rest.map (fun r => r.map fieldOfValue)).map
            (fun r => r.getD 0 CsvField.empty))).all
          (fun f => fieldIsNA f || fieldIsBool f)) = false := by
        rw [List.all_cons]
        have hx : (fieldIsNA (CsvField.text s) || fieldIsBool (CsvField.text s))
            = false := by
          show (naStrings.contains s || boolStrings.contains s) = false
          rw [hna, hbool]
          rfl
        rw [hx]
        rfl
      unfold colKind
      rw [h1, h2]
      rfl

theorem col_succ_numeric {cats : List String} {rows : List (List Value)}
    (h : ∀ r ∈ rows, rowOK cats.length r = true) (j : ℕ) :
    colKind ((rows.map (fun r => r.map fieldOfValue)).map
      (fun r => r.getD (j + 1) CsvField.empty)) = ColKind.numeric := by
  have hnum : colIsNumeric ((rows.map (fun r => r.map fieldOfValue)).map
      (fun r => r.getD (j + 1) CsvField.empty)) = true := by
    unfold colIsNumeric
    rw [List.all_eq_true]
    intro x hx
    rw [List.map_map, List.mem_map] at hx
    obtain ⟨r, hr, hxe⟩ := hx
    apply colfield_numeric
    have hOK := h r hr
    cases r with
    | nil => cases hOK
    | cons v t =>
      rw [Function.comp_apply, List.map_cons, List.getD_cons_succ] at hxe
      by_cases hj : j < t.length
      · have hj2 : j < (t.map fieldOfValue).length := by
          rw [List.length_map]
          exact hj
        rw [List.getD_eq_getElem?_getD, List.getElem?_eq_getElem hj2] at hxe
        have hget : (t.map fieldOfValue)[j] = fieldOfValue t[j] := by
          rw [List.getElem_map]
        rw [hget] at hxe
        have htj : isFloatCell t[j] = true := by
          unfold rowOK at hOK
          rw [Bool.and_eq_true, Bool.and_eq_true] at hOK
          exact List.all_eq_true.mp hOK.1.2 _ (List.getElem_mem hj)
        obtain ⟨f, hq⟩ := isFloatCell_elim htj
        rw [← hxe, hq]
        cases f with
        | fin q => exact Or.inr ⟨.fin q, rfl⟩
        | inf b => exact Or.inr ⟨.inf b, rfl⟩
        | nan => exact Or.inl rfl
      · left
        rw [← hxe, List.getD_eq_default]
        rw [List.length_map]
        omega
  unfold colKind
  rw [hnum]
  rfl

theorem flags_eq {cats : List String} {r0 : List Value} {rest : List (List Value)}
    (h : ∀ r ∈ r0 :: rest, rowOK cats.length r = true) :
    (List.range ("Program" :: cats).length).map
      (fun j => colKind (((r0 :: rest).map (fun r => r.map fieldOfValue)).map
        (fun r => r.getD j CsvField.empty)))
      = ColKind.object :: List.replicate cats.length ColKind.numeric := by
  rw [List.length_cons, List.range_succ_eq_map, List.map_cons]
  congr 1
  · exact col_zero_object (h r0 (List.mem_cons_self _ _))
  · rw [List.map_map]
    apply List.eq_replicate_iff.mpr
    refine ⟨by rw [List.length_map, List.length_range], ?_⟩
    intro b hb
    rw [List.mem_map] at hb
    obtain ⟨j, _, hbe⟩ := hb
    rw [← hbe]
    exact col_succ_numeric h j

theorem reimport_df {df : DataFrame} {cats : List String}
    (hcols : df.cols = "Program" :: cats)
    (hrows : ∀ r ∈ df.rows, rowOK cats.length r = true) :
    read_csv (to_csv df) = df := by
  obtain ⟨cols, rows⟩ := df
  simp only at hcols hrows
  subst hcols
  cases rows with
  | nil => rfl
  | cons r0 rest =>
    unfold read_csv to_csv csvColumn
    simp only [DataFrame.mk.injEq, true_and]
    rw [flags_eq hrows, List.map_map]
    refine (List.map_congr_left ?_).trans (List.map_id _)
    intro r hr
    rw [Function.comp_apply]
    rw [show List.map fieldOfValue r = r.map fieldOfValue from rfl]
    rw [import_row (hrows r hr)]
    rfl

/-- C6, amended: re-importing the app's own CSV export reproduces the
schema exactly and the table up to default-filling - NaN cells come back
as the default 3, every other value is unchanged - for every table in
normalized form `[Program] + schema` whose rating cells are floats
(finite, infinite, or NaN) and whose Program names are nonempty strings
that are not NA sentinels, not bool literals, and not accepted by the
numeric parser (which also takes `inf`/`nan` spellings and overflowing
literals such as `1e400`).  Values outside that shape are re-typed by
`read_csv` rather than preserved (see the counterexample). -/
theorem C6_round_trip (st : SessionState) (df : DataFrame) (cats : List String)
    (hcols : df.cols = "Program" :: cats)
    (hP : cats.contains "Program" = false)
    (hFS : cats.contains "Final Score" = false)
    (hrows : df.rows.all (rowOK cats.length) = true) :
    uploadCsv st (to_csv df)
      = (⟨cats, fillna3 df⟩, UploadResult.synced cats.length) := by
  have hre : read_csv (to_csv df) = df :=
    reimport_df hcols (List.all_eq_true.mp hrows)
  simp only [uploadCsv]
  rw [hre]
  rw [show (fillna3 df).cols = df.cols from rfl, hcols]
  have hcond : ("Program" :: cats).contains "Program" = true :=
    List.elem_iff.mpr (List.mem_cons_self _ _)
  rw [hcond]
  have hfilter : ("Program" :: cats).filter
      (fun c => !(c == "Program" || c == "Final Score")) = cats := by
    rw [List.filter_cons]
    have hh : (!("Program" == "Program" || "Program" == "Final Score")) = false := by
      decide
    rw [hh]
    simp only [Bool.false_eq_true, if_false]
    rw [List.filter_eq_self]
    intro c hc
    have hcP : c ≠ "Program" := by
      intro he
      subst he
      have hx : cats.contains "Program" = true := List.elem_iff.mpr hc
      rw [hP] at hx
      cases hx
    have hcF : c ≠ "Final Score" := by
      intro he
      subst he
      have hx : cats.contains "Final Score" = true := List.elem_iff.mpr hc
      rw [hFS] at hx
      cases hx
    simp [hcP, hcF]
  rw [if_pos rfl, hfilter]

/-- Witness for C6: a one-row normalized table with a finite and a NaN
rating round-trips, the NaN rating coming back as the default 3. -/
theorem C6_witness :
    uploadCsv ⟨["Old"], ⟨["Old"], []⟩⟩
      (to_csv ⟨["Program", "A", "B"],
        [[Value.str "Hosp", Value.flt (.fin (5/2)), Value.flt .nan]]⟩)
    = (⟨["A", "B"], ⟨["Program", "A", "B"],
        [[Value.str "Hosp", Value.flt (.fin (5/2)), Value.flt (.fin 3)]]⟩⟩,
       UploadResult.synced 2) := by
  exact C6_round_trip ⟨["Old"], ⟨["Old"], []⟩⟩
    ⟨["Program", "A", "B"],
      [[Value.str "Hosp", Value.flt (.fin (5/2)), Value.flt .nan]]⟩
    ["A", "B"] rfl (by decide) (by decide) rfl

/-- C6, counterexample: the normalized one-row table with the rating
entered as the text "5" (default-filled, nothing missing) does not
round-trip: `read_csv` re-types the numeric-looking text, so the
re-imported table holds the number 5 where the original held the string
"5" - a value change not covered by default-filling of missing cells.
The schema does survive. -/
theorem C6_counterexample :
    reindexFillna3 ["Program", "A"] ⟨["Program", "A"], [[Value.str "X", Value.str "5"]]⟩
      = ⟨["Program", "A"], [[Value.str "X", Value.str "5"]]⟩
    ∧ (uploadCsv ⟨["A"], ⟨["Program", "A"], [[Value.str "X", Value.str "5"]]⟩⟩
        (to_csv ⟨["Program", "A"], [[Value.str "X", Value.str "5"]]⟩)).1.categories
      = ["A"]
    ∧ (uploadCsv ⟨["A"], ⟨["Program", "A"], [[Value.str "X", Value.str "5"]]⟩⟩
        (to_csv ⟨["Program", "A"], [[Value.str "X", Value.str "5"]]⟩)).1.data.rows
      = [[Value.str "X", Value.flt (.fin 5)]]
    ∧ [[Value.str "X", Value.flt (.fin 5)]] ≠ [[Value.str "X", Value.str "5"]] := by
  have h5 : floatOfString "5" = some (.fin 5) := by
    simp [floatOfString, floatOfChars, digitsAux, splitSign, mkFloat, isPyWs, digitVal]
    norm_num
  have hX : floatOfString "X" = Option.none := rfl
  refine ⟨rfl, ?_, ?_, by decide⟩
  · simp [uploadCsv, fillna3, read_csv, to_csv, csvColumn, colKind, colIsNumeric,
      importField, fieldIsNA, fieldIsBool, fieldNum, fieldOfValue, naStrings,
      boolStrings, trueStrings, fillCell, h5, hX, List.range_succ, List.filter]
  · simp [uploadCsv, fillna3, read_csv, to_csv, csvColumn, colKind, colIsNumeric,
      importField, fieldIsNA, fieldIsBool, fieldNum, fieldOfValue, naStrings,
      boolStrings, trueStrings, fillCell, h5, hX, List.range_succ, List.filter]
